import Mathlib

/-!
Verification of the UG4Tests repository: a regression- and unit-test
harness for the UG4 PDE framework.  The development below shallowly embeds
the harness logic — the reference comparison of `Testcase` in
`regression_tests/testcase.h`, the grid-refinement loop, the hard-coded
solver configuration of `Laplace::run` in `regression_tests/laplace.cpp`,
and the fixed-dimension vector arithmetic exercised by
`unit_tests/vector_tests.cpp` — and proves the specified properties.

Doubles are modelled by exact rationals `ℚ`; indices and sizes by `Nat`.
-/

namespace UG4Tests

/-- Embeds `Testcase::isEqual` (testcase.h, line 150–153):
`return abs(a - b) < 0.000001;` — absolute tolerance, no relative scaling. -/
def isEqual (a b : ℚ) : Bool := |a - b| < 1/1000000

/-- Outcome of a run of `Testcase::compare`.  `ok b idx` means the loop
terminated normally returning `b`, with `idx` the index printed by
`std::cout << "Not equal at " << i` (none when nothing was printed).
`oobAccess i` records that the loop read `(*m_spReference)[i]` past the end
of the reference vector (undefined behaviour in the C++). -/
inductive CompareResult where
  | ok : Bool → Option Nat → CompareResult
  | oobAccess : Nat → CompareResult
  deriving DecidableEq

/-- The loop body of `Testcase::compare` (testcase.h, lines 93–100):
iterates `i` over the solution entries, reads `(*m_spReference)[i]`, and
returns `false` (printing `i`) at the first pair failing `isEqual`. -/
def compareLoop (ref : List ℚ) : List ℚ → Nat → CompareResult
  | [], _ => .ok true none
  | s :: ss, i =>
    match ref[i]? with
    | none => .oobAccess i
    | some r =>
      if isEqual s r then compareLoop ref ss (i + 1)
      else .ok false (some i)

/-- Embeds `Testcase::compare` (testcase.h, lines 89–103).  The C++ first
calls `read_reference()`; here the reference vector read from the file is
the argument `ref`, and the solution vector `*m_spSolution` is `sol`. -/
def compare (sol ref : List ℚ) : CompareResult := compareLoop ref sol 0

/-- The two string fields stored by the `Testcase` constructor
(testcase.h, lines 73–77). -/
structure Testcase where
  m_gridname : String
  m_reference : String

/-- Embeds `Testcase::run` (testcase.h, lines 79–82): the base class
unconditionally raises `UG_THROW("run() function of testcase not
implemented.")`. -/
def Testcase.run (_tc : Testcase) : Except String Unit :=
  .error "run() function of testcase not implemented."

/-- Embeds the `for (int i = 0; i < numRefs; i++)` body of
`Testcase::refine` (testcase.h, lines 111–117): a counted loop applying one
refinement step per iteration.  The grid and the framework's
`GlobalMultiGridRefiner::refine()` are abstract: `step` is one call. -/
def refineIter {G : Type} (step : G → G) : Nat → G → G
  | 0, g => g
  | n + 1, g => refineIter step n (step g)

/-- Embeds `Testcase::refine(numRefs)` (testcase.h, lines 111–117); the C++
loop counter is a signed `int`, so a non-positive `numRefs` runs zero
iterations. -/
def refine {G : Type} (step : G → G) (numRefs : Int) (g : G) : G :=
  refineIter step numRefs.toNat g

/-- The solver parameters assembled by `Laplace::run` (laplace.cpp,
lines 101–128), gathered as one record. -/
structure LaplaceConfig where
  numRefs : Int
  jacobiDamping : ℚ
  cycleType : String
  numPresmooth : Nat
  numPostsmooth : Nat
  maxIter : Nat
  absTol : ℚ
  relTol : ℚ

/-- Embeds the literals of `Laplace::run` (laplace.cpp): `refine(4)`
(line 77), `Jacobi<TAlgebra>(0.66)` (line 103), `set_cycle_type("V")`
(line 118), `set_num_presmooth(3)` / `set_num_postsmooth(3)` (lines
119–120), `StdConvCheck<vector_type>(100, 1e-12, 1e-6, true)` (line 128). -/
def laplaceRunConfig : LaplaceConfig :=
  { numRefs := 4
    jacobiDamping := 66/100
    cycleType := "V"
    numPresmooth := 3
    numPostsmooth := 3
    maxIter := 100
    absTol := 1/1000000000000
    relTol := 1/1000000 }

/-- The refinement effect of `Laplace::run` on the loaded grid: the call
`refine(4)` at laplace.cpp line 77. -/
def laplaceRefineGrid {G : Type} (step : G → G) (g : G) : G :=
  refine step laplaceRunConfig.numRefs g

/-! ### Vector arithmetic (unit_tests/vector_tests.cpp)

The tests exercise `MathVector<3, ValueType>` operations from the UG4
framework's `common/math/ugmath.h`, which is not part of this repository;
only the tests calling them are.  The operations are therefore modelled
from the spec, over exact rationals, with the fixed dimension 3 of the
fixture. -/

/-- The fixed dimension of the `VectorTests` fixture (`static const int
dim = 3`). -/
def dim : Nat := 3

/-- `MathVector<3, ValueType>` with exact rational components. -/
def Vec : Type := Fin dim → ℚ

/-- The zero vector: `c = 0` in `VectorTests::reset`. -/
def zeroVec : Vec := fun _ => 0

/-- Modelled from the spec: `VecAppend` of the UG4 framework (missing from
this repository, declared in `common/math/ugmath.h`) — "accumulation
(`append` semantics: result becomes prior value plus added terms)".  Each
listed vector is added onto the destination in turn. -/
def VecAppend (dst : Vec) (vs : List Vec) : Vec :=
  vs.foldl (fun acc v => fun i => acc i + v i) dst

/-- Modelled from the spec: `VecScaleAppend` of the UG4 framework (missing
from this repository) — "weighted accumulation (scale-and-add with
arbitrary per-term scalar weights)".  Each scalar–vector term is scaled and
added onto the destination in turn. -/
def VecScaleAppend (dst : Vec) (terms : List (ℚ × Vec)) : Vec :=
  terms.foldl (fun acc sv => fun i => acc i + sv.1 * sv.2 i) dst

/-- Modelled from the spec: n-ary `VecAdd` of the UG4 framework (missing
from this repository) — "plain addition ... of two-to-four operands":
the destination is assigned the elementwise sum of the operands. -/
def VecAdd (vs : List Vec) : Vec :=
  VecAppend zeroVec vs

/-- Modelled from the spec: `VecSubtract` of the UG4 framework (missing
from this repository) — elementwise subtraction of two operands. -/
def VecSubtract (a b : Vec) : Vec := fun i => a i - b i

/-- Iterated multiplication, the mathematical meaning of raising a
component to a natural power. -/
def powQ (a : ℚ) : Nat → ℚ
  | 0 => 1
  | n + 1 => a * powQ a n

/-- Modelled from the spec: `VecPow` of the UG4 framework (missing from
this repository) — "element-wise exponentiation: each output element
equals the corresponding input element raised to the given power". -/
def VecPow (a : Vec) (p : Nat) : Vec := fun i => powQ (a i) p

/-! ### Helper lemmas about the comparison loop -/

lemma compareLoop_ok_of_all_close (ref : List ℚ) (sol : List ℚ) :
    ∀ i : Nat, i + sol.length ≤ ref.length →
      (∀ j, j < sol.length → isEqual (sol.getD j 0) (ref.getD (i + j) 0) = true) →
      compareLoop ref sol i = CompareResult.ok true none := by
  induction sol with
  | nil => intro i _ _; rfl
  | cons s ss ih =>
    intro i hle heq
    have hi : i < ref.length := by simp only [List.length_cons] at hle; omega
    have h0 : isEqual s ref[i] = true := by
      have h := heq 0 (by simp)
      rw [Nat.add_zero, List.getD_cons_zero, List.getD_eq_getElem ref 0 hi] at h
      exact h
    simp only [compareLoop, List.getElem?_eq_getElem hi, h0, if_true]
    apply ih (i + 1) (by simp only [List.length_cons] at hle; omega)
    intro j hj
    have h := heq (j + 1) (by simp only [List.length_cons]; omega)
    rw [List.getD_cons_succ] at h
    rw [show i + (j + 1) = i + 1 + j from by omega] at h
    exact h

lemma compareLoop_mismatch (ref : List ℚ) (sol : List ℚ) :
    ∀ i j : Nat, j < sol.length → i + j < ref.length →
      (∀ k, k < j → isEqual (sol.getD k 0) (ref.getD (i + k) 0) = true) →
      isEqual (sol.getD j 0) (ref.getD (i + j) 0) = false →
      compareLoop ref sol i = CompareResult.ok false (some (i + j)) := by
  induction sol with
  | nil => intro i j hj _ _ _; exact absurd hj (by simp)
  | cons s ss ih =>
    intro i j hj hlt hpre hmis
    match j with
    | 0 =>
      have hi : i < ref.length := by omega
      have h0 : isEqual s ref[i] = false := by
        rw [Nat.add_zero, List.getD_cons_zero, List.getD_eq_getElem ref 0 hi] at hmis
        exact hmis
      simp only [compareLoop, List.getElem?_eq_getElem hi, h0, Bool.false_eq_true,
        if_false, Nat.add_zero]
    | j' + 1 =>
      have hi : i < ref.length := by omega
      have h0 : isEqual s ref[i] = true := by
        have h := hpre 0 (by omega)
        rw [Nat.add_zero, List.getD_cons_zero, List.getD_eq_getElem ref 0 hi] at h
        exact h
      simp only [compareLoop, List.getElem?_eq_getElem hi, h0, if_true]
      rw [show i + (j' + 1) = i + 1 + j' from by omega]
      apply ih (i + 1) j' (by simp only [List.length_cons] at hj; omega) (by omega)
      · intro k hk
        have h := hpre (k + 1) (by omega)
        rw [List.getD_cons_succ] at h
        rw [show i + (k + 1) = i + 1 + k from by omega] at h
        exact h
      · rw [List.getD_cons_succ] at hmis
        rw [show i + (j' + 1) = i + 1 + j' from by omega] at hmis
        exact hmis

lemma compareLoop_oob (ref : List ℚ) (sol : List ℚ) :
    ∀ i : Nat, i ≤ ref.length → ref.length < i + sol.length →
      (∀ k, i + k < ref.length → isEqual (sol.getD k 0) (ref.getD (i + k) 0) = true) →
      compareLoop ref sol i = CompareResult.oobAccess ref.length := by
  induction sol with
  | nil => intro i hle hlt _; simp only [List.length_nil, Nat.add_zero] at hlt; omega
  | cons s ss ih =>
    intro i hle hlt hpre
    rcases Nat.lt_or_ge i ref.length with hi | hi
    · have h0 : isEqual s ref[i] = true := by
        have h := hpre 0 (by omega)
        rw [Nat.add_zero, List.getD_cons_zero, List.getD_eq_getElem ref 0 hi] at h
        exact h
      simp only [compareLoop, List.getElem?_eq_getElem hi, h0, if_true]
      apply ih (i + 1) (by omega) (by simp only [List.length_cons] at hlt; omega)
      intro k hk
      have h := hpre (k + 1) (by omega)
      rw [List.getD_cons_succ] at h
      rw [show i + (k + 1) = i + 1 + k from by omega] at h
      exact h
    · have hieq : i = ref.length := Nat.le_antisymm hle hi
      have hnone : ref[i]? = none := by
        rw [List.getElem?_eq_none_iff]; omega
      simp only [compareLoop, hnone]
      rw [hieq]

lemma compareLoop_ne_oob (ref : List ℚ) (sol : List ℚ) :
    ∀ i m : Nat, i + sol.length ≤ ref.length →
      compareLoop ref sol i ≠ CompareResult.oobAccess m := by
  induction sol with
  | nil => intro i m _ h; exact CompareResult.noConfusion h
  | cons s ss ih =>
    intro i m hle h
    have hi : i < ref.length := by simp only [List.length_cons] at hle; omega
    simp only [compareLoop, List.getElem?_eq_getElem hi] at h
    by_cases he : isEqual s ref[i]
    · rw [if_pos he] at h
      exact ih (i + 1) m (by simp only [List.length_cons] at hle; omega) h
    · rw [if_neg he] at h
      exact CompareResult.noConfusion h

lemma compareLoop_congr (ref1 ref2 : List ℚ) (sol : List ℚ) :
    ∀ i : Nat, (∀ j, j < sol.length → ref1[i + j]? = ref2[i + j]?) →
      compareLoop ref1 sol i = compareLoop ref2 sol i := by
  induction sol with
  | nil => intro i _; rfl
  | cons s ss ih =>
    intro i h
    have h0 : ref1[i]? = ref2[i]? := by
      have h := h 0 (by simp)
      rwa [Nat.add_zero] at h
    simp only [compareLoop, ← h0]
    cases hr : ref1[i]? with
    | none => rfl
    | some r =>
      dsimp only
      by_cases he : isEqual s r
      · rw [if_pos he, if_pos he]
        apply ih (i + 1)
        intro j hj
        have h := h (j + 1) (by simp only [List.length_cons]; omega)
        rwa [show i + (j + 1) = i + 1 + j from by omega] at h
      · rw [if_neg he, if_neg he]

/-! ### Helper lemmas about the vector operations -/

lemma VecAppend_cons (dst v : Vec) (vs : List Vec) :
    VecAppend dst (v :: vs) = VecAppend (fun i => dst i + v i) vs := rfl

lemma VecAppend_apply :
    ∀ (vs : List Vec) (dst : Vec) (i : Fin dim),
      VecAppend dst vs i = dst i + (vs.map (fun v => v i)).sum
  | [], dst, i => by simp [VecAppend]
  | v :: vs, dst, i => by
    rw [VecAppend_cons, VecAppend_apply vs]
    simp [add_assoc]

lemma VecScaleAppend_cons (dst : Vec) (sv : ℚ × Vec) (ts : List (ℚ × Vec)) :
    VecScaleAppend dst (sv :: ts) =
      VecScaleAppend (fun i => dst i + sv.1 * sv.2 i) ts := rfl

lemma VecScaleAppend_apply :
    ∀ (ts : List (ℚ × Vec)) (dst : Vec) (i : Fin dim),
      VecScaleAppend dst ts i = dst i + (ts.map (fun sv => sv.1 * sv.2 i)).sum
  | [], dst, i => by simp [VecScaleAppend]
  | sv :: ts, dst, i => by
    rw [VecScaleAppend_cons, VecScaleAppend_apply ts]
    simp [add_assoc]

lemma powQ_eq_pow (a : ℚ) : ∀ p : Nat, powQ a p = a ^ p
  | 0 => by simp [powQ]
  | p + 1 => by rw [powQ, powQ_eq_pow a p, pow_succ]; ring

lemma refineIter_eq_iterate {G : Type} (step : G → G) :
    ∀ (n : Nat) (g : G), refineIter step n g = step^[n] g
  | 0, g => rfl
  | n + 1, g => by
    rw [refineIter, refineIter_eq_iterate step n, Function.iterate_succ_apply]

/-! ### The claims -/

/-- Claim C1: isEqual(a, b) returns true exactly when |a - b| < 0.000001,
with no relative-tolerance scaling; consequently, for equal-length
sequences in which every corresponding pair differs in absolute value by
less than 0.000001, Testcase::compare() returns true (printing no
mismatch index). -/
theorem claim_C1 :
    (∀ a b : ℚ, isEqual a b = true ↔ |a - b| < 1/1000000) ∧
    (∀ sol ref : List ℚ, sol.length = ref.length →
      (∀ i, i < sol.length → |sol.getD i 0 - ref.getD i 0| < 1/1000000) →
      compare sol ref = CompareResult.ok true none) := by
  constructor
  · intro a b
    simp [isEqual]
  · intro sol ref hlen hclose
    apply compareLoop_ok_of_all_close ref sol 0 (by omega)
    intro j hj
    rw [Nat.zero_add]
    simp only [isEqual, decide_eq_true_eq]
    exact hclose j hj

/-- Witness for C1 at a concrete input. -/
theorem claim_C1_witness :
    (isEqual 1 1 = true ↔ |(1 : ℚ) - 1| < 1/1000000) ∧
    compare [(2 : ℚ), 3] [(2 : ℚ), 3] = CompareResult.ok true none :=
  ⟨claim_C1.1 1 1, claim_C1.2 [2, 3] [2, 3] rfl
    (by
      intro i hi
      simp only [List.length_cons, List.length_nil] at hi
      interval_cases i <;> norm_num)⟩

/-- Claim C2: when the sequences have equal length and j is the lowest
index whose pair differs in absolute value by at least 1e-6 (all earlier
pairs differ by less), Testcase::compare() returns false and prints
index j. -/
theorem claim_C2 :
    ∀ (sol ref : List ℚ) (j : Nat), sol.length = ref.length →
      j < sol.length →
      (∀ k, k < j → |sol.getD k 0 - ref.getD k 0| < 1/1000000) →
      1/1000000 ≤ |sol.getD j 0 - ref.getD j 0| →
      compare sol ref = CompareResult.ok false (some j) := by
  intro sol ref j hlen hj hpre hmis
  have h := compareLoop_mismatch ref sol 0 j hj (by omega)
    (fun k hk => by
      rw [Nat.zero_add]
      simp only [isEqual, decide_eq_true_eq]
      exact hpre k hk)
    (by
      rw [Nat.zero_add]
      simp only [isEqual, decide_eq_false_iff_not, not_lt]
      exact hmis)
  rwa [Nat.zero_add] at h

/-- Witness for C2 at a concrete input: the pair at index 1 differs by 1. -/
theorem claim_C2_witness :
    compare [(0 : ℚ), 1] [(0 : ℚ), 2] = CompareResult.ok false (some 1) :=
  claim_C2 [0, 1] [0, 2] 1 rfl (by decide)
    (by
      intro k hk
      interval_cases k
      norm_num) (by norm_num)

/-- Counterexample to C3 as stated: with solution [0, 5] and the shorter
reference [1] the precondition fails, yet compare() returns normally at
the index-0 mismatch — it reads only index 0 (not all of 0..1) and no
out-of-bounds access occurs. -/
theorem claim_C3_counterexample :
    [(0 : ℚ), 5].length ≠ [(1 : ℚ)].length ∧
    compare [(0 : ℚ), 5] [(1 : ℚ)] = CompareResult.ok false (some 0) := by
  constructor
  · decide
  · norm_num [compare, compareLoop, isEqual]

lemma compare_first_mismatch (sol ref : List ℚ) (j : Nat) :
    j < sol.length → j < ref.length →
    (∀ k, k < j → |sol.getD k 0 - ref.getD k 0| < 1/1000000) →
    1/1000000 ≤ |sol.getD j 0 - ref.getD j 0| →
    compare sol ref = CompareResult.ok false (some j) := by
  intro hj hjr hpre hmis
  have h := compareLoop_mismatch ref sol 0 j hj (by omega)
    (fun k hk => by
      rw [Nat.zero_add]
      simp only [isEqual, decide_eq_true_eq]
      exact hpre k hk)
    (by
      rw [Nat.zero_add]
      simp only [isEqual, decide_eq_false_iff_not, not_lt]
      exact hmis)
  rwa [Nat.zero_add] at h

/-- Claim C3 (amended): compare() performs no length validation and reads
indices 0 up to the first mismatch; under the precondition that the
reference is at least as long as the solution every access is in bounds
(no out-of-bounds result is possible), and without that precondition an
out-of-bounds access occurs — at index len(reference) — exactly when all
pairs up to the reference's length are within tolerance: an earlier
mismatch at index j makes compare() return false printing j, before any
out-of-bounds access. -/
theorem claim_C3_amended :
    (∀ (sol ref : List ℚ) (m : Nat), sol.length ≤ ref.length →
      compare sol ref ≠ CompareResult.oobAccess m) ∧
    (∀ sol ref : List ℚ, ref.length < sol.length →
      ((∃ m, compare sol ref = CompareResult.oobAccess m) ↔
        (∀ k, k < ref.length → |sol.getD k 0 - ref.getD k 0| < 1/1000000))) ∧
    (∀ sol ref : List ℚ, ref.length < sol.length →
      (∀ k, k < ref.length → |sol.getD k 0 - ref.getD k 0| < 1/1000000) →
      compare sol ref = CompareResult.oobAccess ref.length) ∧
    (∀ (sol ref : List ℚ) (j : Nat), ref.length < sol.length →
      j < ref.length →
      (∀ k, k < j → |sol.getD k 0 - ref.getD k 0| < 1/1000000) →
      1/1000000 ≤ |sol.getD j 0 - ref.getD j 0| →
      compare sol ref = CompareResult.ok false (some j)) := by
  have hoob : ∀ sol ref : List ℚ, ref.length < sol.length →
      (∀ k, k < ref.length → |sol.getD k 0 - ref.getD k 0| < 1/1000000) →
      compare sol ref = CompareResult.oobAccess ref.length := by
    intro sol ref hlt hpre
    apply compareLoop_oob ref sol 0 (by omega) (by omega)
    intro k hk
    rw [Nat.zero_add] at hk ⊢
    simp only [isEqual, decide_eq_true_eq]
    exact hpre k hk
  refine ⟨?_, ?_, hoob, ?_⟩
  · intro sol ref m hle
    exact compareLoop_ne_oob ref sol 0 m (by omega)
  · intro sol ref hlt
    constructor
    · rintro ⟨m, hm⟩
      by_contra hnc
      push_neg at hnc
      obtain ⟨k0, hk0, hge0⟩ := hnc
      have hex : ∃ k, k < ref.length ∧ 1/1000000 ≤ |sol.getD k 0 - ref.getD k 0| :=
        ⟨k0, hk0, hge0⟩
      have hspec := Nat.find_spec hex
      have hpre : ∀ k, k < Nat.find hex →
          |sol.getD k 0 - ref.getD k 0| < 1/1000000 := by
        intro k hk
        have hnk := Nat.find_min hex hk
        have hklt : k < ref.length := lt_trans hk hspec.1
        by_contra hcon
        exact hnk ⟨hklt, le_of_not_lt hcon⟩
      have hres := compare_first_mismatch sol ref (Nat.find hex)
        (lt_trans hspec.1 hlt) hspec.1 hpre hspec.2
      rw [hres] at hm
      exact CompareResult.noConfusion hm
    · intro hclose
      exact ⟨ref.length, hoob sol ref hlt hclose⟩
  · intro sol ref j hlt hjr hpre hmis
    exact compare_first_mismatch sol ref j (lt_trans hjr hlt) hjr hpre hmis

/-- Witness for the amended C3 at concrete inputs: a longer reference
hits no out-of-bounds, a shorter all-close reference hits one at its
length, and a shorter reference with an early mismatch returns false at
index 0 with no out-of-bounds access. -/
theorem claim_C3_witness :
    compare [(1 : ℚ)] [(1 : ℚ), 2] ≠ CompareResult.oobAccess 0 ∧
    compare [(1 : ℚ), 2] [(1 : ℚ)] = CompareResult.oobAccess 1 ∧
    compare [(0 : ℚ), 5, 9] [(1 : ℚ), 5] = CompareResult.ok false (some 0) :=
  ⟨claim_C3_amended.1 [1] [1, 2] 0 (by decide),
   claim_C3_amended.2.2.1 [1, 2] [1] (by decide)
     (by
       intro k hk
       simp only [List.length_cons, List.length_nil] at hk
       interval_cases k
       norm_num),
   claim_C3_amended.2.2.2 [0, 5, 9] [1, 5] 0 (by decide) (by decide)
     (fun k hk => absurd hk (Nat.not_lt_zero k)) (by norm_num)⟩

/-- Claim C4: VecAppend accumulates — the result is the prior value of
the destination plus the added terms, componentwise, for chains of one to
three added vectors (the test's VecAppend(a,b), VecAppend(c,a,b),
VecAppend(d,a,b,c)). -/
theorem claim_C4 :
    ∀ (a b c d : Vec) (i : Fin dim),
      VecAppend a [b] i = a i + b i ∧
      VecAppend c [a, b] i = c i + (a i + b i) ∧
      VecAppend d [a, b, c] i = d i + (a i + b i + c i) := by
  intro a b c d i
  refine ⟨?_, ?_, ?_⟩ <;> simp [VecAppend_apply, add_assoc]

/-- Claim C5: VecScaleAppend on a zero-initialized destination yields in
each component exactly the weighted sum of its terms, for any chain
length and in particular for 5-term chains. -/
theorem claim_C5 :
    (∀ (terms : List (ℚ × Vec)) (i : Fin dim),
      VecScaleAppend zeroVec terms i = (terms.map (fun sv => sv.1 * sv.2 i)).sum) ∧
    (∀ (s1 s2 s3 s4 s5 : ℚ) (v1 v2 v3 v4 v5 : Vec) (i : Fin dim),
      VecScaleAppend zeroVec [(s1, v1), (s2, v2), (s3, v3), (s4, v4), (s5, v5)] i =
        s1 * v1 i + s2 * v2 i + s3 * v3 i + s4 * v4 i + s5 * v5 i) := by
  constructor
  · intro terms i
    rw [VecScaleAppend_apply]
    simp [zeroVec]
  · intro s1 s2 s3 s4 s5 v1 v2 v3 v4 v5 i
    rw [VecScaleAppend_apply]
    simp [zeroVec, add_assoc]

/-- Claim C6: each output component of VecPow equals the corresponding
input component raised to the given power; in particular the test's
VecPow(c, a, 2) squares componentwise. -/
theorem claim_C6 :
    ∀ (a : Vec) (p : Nat) (i : Fin dim),
      VecPow a p i = a i ^ p ∧ VecPow a 2 i = a i * a i := by
  intro a p i
  constructor
  · exact powQ_eq_pow (a i) p
  · show powQ (a i) 2 = a i * a i
    rw [powQ_eq_pow]
    ring

/-- Claim C7: VecAdd assigns the elementwise sum of two, three and four
operands, and VecSubtract the elementwise difference. -/
theorem claim_C7 :
    ∀ (a b c d : Vec) (i : Fin dim),
      VecAdd [a, b] i = a i + b i ∧
      VecAdd [a, b, c] i = a i + b i + c i ∧
      VecAdd [a, b, c, d] i = a i + b i + c i + d i ∧
      VecSubtract a b i = a i - b i := by
  intro a b c d i
  refine ⟨?_, ?_, ?_, rfl⟩ <;>
    simp [VecAdd, VecAppend_apply, zeroVec, add_assoc]

/-- Claim C8: run() on the base-class Testcase, for any grid and
reference names it stores, raises the fatal error "run() function of
testcase not implemented." and never returns normally. -/
theorem claim_C8 :
    ∀ tc : Testcase,
      tc.run = Except.error "run() function of testcase not implemented." ∧
      ∀ u : Unit, tc.run ≠ Except.ok u := by
  intro tc
  exact ⟨rfl, fun u h => Except.noConfusion h⟩

/-- Claim C9: refine(numRefs) applies the framework refinement step
exactly numRefs times (zero times when numRefs ≤ 0), Laplace::run refines
the loaded grid exactly 4 times, and the solver parameters are the fixed
literals 0.66 (Jacobi damping), "V" (cycle type), 3 pre- and 3
post-smoothing steps, 100 iterations, 1e-12 absolute and 1e-6 relative
tolerance. -/
theorem claim_C9 :
    (∀ (G : Type) (step : G → G) (n : Int) (g : G),
      refine step n g = step^[n.toNat] g) ∧
    (∀ (G : Type) (step : G → G) (n : Int) (g : G), n ≤ 0 →
      refine step n g = g) ∧
    (∀ (G : Type) (step : G → G) (g : G),
      laplaceRefineGrid step g = step^[4] g) ∧
    laplaceRunConfig.numRefs = 4 ∧
    laplaceRunConfig.jacobiDamping = 66/100 ∧
    laplaceRunConfig.cycleType = "V" ∧
    laplaceRunConfig.numPresmooth = 3 ∧
    laplaceRunConfig.numPostsmooth = 3 ∧
    laplaceRunConfig.maxIter = 100 ∧
    laplaceRunConfig.absTol = 1/1000000000000 ∧
    laplaceRunConfig.relTol = 1/1000000 := by
  refine ⟨?_, ?_, ?_, rfl, rfl, rfl, rfl, rfl, rfl, rfl, rfl⟩
  · intro G step n g
    exact refineIter_eq_iterate step n.toNat g
  · intro G step n g hn
    have h : n.toNat = 0 := Int.toNat_of_nonpos hn
    rw [refine, h]
    rfl
  · intro G step g
    exact refineIter_eq_iterate step 4 g

/-- Witness for C9: with a non-positive refinement count the grid is
unchanged, and the iterate identities hold at a concrete step. -/
theorem claim_C9_witness :
    refine (fun m : Nat => m + 1) 2 5 = (fun m : Nat => m + 1)^[(2 : Int).toNat] 5 ∧
    refine (fun m : Nat => m + 1) (-3) 5 = 5 ∧
    laplaceRefineGrid (fun m : Nat => m + 1) 0 = (fun m : Nat => m + 1)^[4] 0 :=
  ⟨claim_C9.1 Nat (fun m => m + 1) 2 5,
   claim_C9.2.1 Nat (fun m => m + 1) (-3) 5 (by decide),
   claim_C9.2.2.1 Nat (fun m => m + 1) 0⟩

/-- Claim C10: compare() depends only on the solution and the first
len(solution) entries of the reference — two references at least as long
as the solution and agreeing there give the same result — and on an empty
solution it returns true for every reference. -/
theorem claim_C10 :
    (∀ sol ref1 ref2 : List ℚ, sol.length ≤ ref1.length →
      sol.length ≤ ref2.length →
      (∀ i, i < sol.length → ref1.getD i 0 = ref2.getD i 0) →
      compare sol ref1 = compare sol ref2) ∧
    (∀ ref : List ℚ, compare [] ref = CompareResult.ok true none) := by
  constructor
  · intro sol ref1 ref2 h1 h2 hagree
    show compareLoop ref1 sol 0 = compareLoop ref2 sol 0
    apply compareLoop_congr
    intro j hj
    rw [Nat.zero_add]
    have hj1 : j < ref1.length := lt_of_lt_of_le hj h1
    have hj2 : j < ref2.length := lt_of_lt_of_le hj h2
    rw [List.getElem?_eq_getElem hj1, List.getElem?_eq_getElem hj2]
    have h := hagree j hj
    rw [List.getD_eq_getElem ref1 0 hj1, List.getD_eq_getElem ref2 0 hj2] at h
    rw [h]
  · intro ref
    rfl

/-- Witness for C10: two references differing only beyond the solution's
length give the same result, and the empty solution compares true. -/
theorem claim_C10_witness :
    compare [(1 : ℚ)] [(1 : ℚ), 7] = compare [(1 : ℚ)] [(1 : ℚ), 8] ∧
    compare [] [(5 : ℚ)] = CompareResult.ok true none :=
  ⟨claim_C10.1 [1] [1, 7] [1, 8] (by decide) (by decide)
    (by
      intro i hi
      simp only [List.length_cons, List.length_nil] at hi
      interval_cases i
      rfl),
   claim_C10.2 [5]⟩

end UG4Tests
